import Mathlib

/-!
Shallow embedding of the log query engine of
`src/python/enfugue/api/controller/system.py`:
the line classifier `LOG_REGEX` + `datetime.strptime`, the record
assembler `parse_logs`, and the filter/sort/reverse pipeline of the
`read_logs` handler.  Strings are embedded as `List Char`.
-/

namespace Enfugue

/-- A `datetime.datetime` value: the seven fields Python stores.
Python compares datetimes chronologically, which on in-range field
values coincides with lexicographic comparison of the field tuple. -/
structure DateTime where
  year : Nat
  month : Nat
  day : Nat
  hour : Nat
  minute : Nat
  second : Nat
  microsecond : Nat
deriving DecidableEq, Repr

/-- Injective packing of the fields of an in-range datetime into `Nat`,
so that `key` comparison is Python's chronological comparison whenever
the fields are in the ranges `datetime` enforces (month 1-12, day 1-31,
hour < 24, minute < 60, second < 60, microsecond < 1000000). -/
def DateTime.key (d : DateTime) : Nat :=
  (((((d.year * 13 + d.month) * 32 + d.day) * 24 + d.hour) * 60
    + d.minute) * 60 + d.second) * 1000000 + d.microsecond

/-- Modelled from the spec: the deserialization of a `since` request
parameter given as a bare calendar date is performed by the external
`Serializer.deserialize` collaborator (the `pibble` library, outside
this repository); the spec states a date-only cutoff denotes midnight
(start of day) of that date. -/
def midnightOf (y mo d : Nat) : DateTime :=
  ⟨y, mo, d, 0, 0, 0, 0⟩

/-- The record the engine produces for one primary line.  The Python
`LogDict` TypedDict declares `line: int`, but `parse_logs` stores the
matched digit substring without conversion (the `cast` silences the
type checker), so the runtime value of `line` is a string; the
embedding records the runtime value. -/
structure LogDict where
  timestamp : DateTime
  logger : List Char
  level : List Char
  file : List Char
  line : List Char
  content : List Char
deriving DecidableEq, Repr

/-- The capture groups of `LOG_REGEX` (the `groupdict()` of a match). -/
structure LogGroups where
  timestampStr : List Char
  logger : List Char
  level : List Char
  file : List Char
  lineStr : List Char
  content : List Char
deriving DecidableEq, Repr

/-- Filter parameters of the `read_logs` handler, after request-side
deserialization: `since` (already deserialized and normalized), the
`level` and `logger` multi-value parameters (Python lists; an empty
list is falsy and imposes no restriction), and `search`. -/
structure QueryCriteria where
  since : Option DateTime
  levels : List (List Char)
  loggers : List (List Char)
  search : Option (List Char)

/-! Parser combinators used to embed `LOG_REGEX`.  Every repeated
character class in the regex is followed by a delimiter the class
excludes, so greedy matching never backtracks and the regex is
equivalent to this deterministic left-to-right parse. -/

/-- Consume one expected literal character. -/
def expectChar (c : Char) : List Char → Option (List Char)
  | [] => none
  | x :: xs => if x = c then some xs else none

/-- Consume exactly `n` characters satisfying `p`, returning them and
the remainder. -/
def expectRun (p : Char → Bool) : Nat → List Char → Option (List Char × List Char)
  | 0, l => some ([], l)
  | _ + 1, [] => none
  | n + 1, x :: xs =>
    if p x then (expectRun p n xs).map (fun r => (x :: r.1, r.2)) else none

/-- Consume a maximal nonempty run of characters satisfying `p`
(the semantics of a greedy `class+` whose follower is outside the
class). -/
def plusRun (p : Char → Bool) (l : List Char) : Option (List Char × List Char) :=
  match l.takeWhile p with
  | [] => none
  | c :: cs => some (c :: cs, l.dropWhile p)

/-- Character class `[a-zA-Z0-9_\.]` of the `logger` group. -/
def isLoggerChar (c : Char) : Bool :=
  c.isAlpha || c.isDigit || c = '_' || c = '.'

/-- Character class `[^:]` of the `file` group. -/
def isNotColon (c : Char) : Bool := c ≠ ':'

/-- Semantics of the trailing `(?P<content>.*)$` of `LOG_REGEX`: `.`
does not match a newline and `$` matches at the end of the string or
just before a single trailing newline, so the group matches exactly
when no newline occurs before the final position, and a trailing
newline is excluded from the capture. -/
def matchContent (r : List Char) : Option (List Char) :=
  let c := if r.getLast? = some '\n' then r.dropLast else r
  if c.contains '\n' then none else some c

/-- Structural match of `LOG_REGEX` against one physical line:
`^(?P<timestamp>\d{4}-\d{2}-\d{2} \d{2}:\d{2}:\d{2},\d+)
\[(?P<logger>[a-zA-Z0-9_\.]+)\] (?P<level>[A-Z]+)
\((?P<file>[^:]+):(?P<line>[\d]+)\) (?P<content>.*)$`
returning the capture groups on success. -/
def structMatch (l : List Char) : Option LogGroups :=
  match expectRun Char.isDigit 4 l with
  | none => none
  | some (y, r) =>
  match expectChar '-' r with
  | none => none
  | some r =>
  match expectRun Char.isDigit 2 r with
  | none => none
  | some (mo, r) =>
  match expectChar '-' r with
  | none => none
  | some r =>
  match expectRun Char.isDigit 2 r with
  | none => none
  | some (d, r) =>
  match expectChar ' ' r with
  | none => none
  | some r =>
  match expectRun Char.isDigit 2 r with
  | none => none
  | some (h, r) =>
  match expectChar ':' r with
  | none => none
  | some r =>
  match expectRun Char.isDigit 2 r with
  | none => none
  | some (mi, r) =>
  match expectChar ':' r with
  | none => none
  | some r =>
  match expectRun Char.isDigit 2 r with
  | none => none
  | some (s, r) =>
  match expectChar ',' r with
  | none => none
  | some r =>
  match plusRun Char.isDigit r with
  | none => none
  | some (frac, r) =>
  match expectChar ' ' r with
  | none => none
  | some r =>
  match expectChar '[' r with
  | none => none
  | some r =>
  match plusRun isLoggerChar r with
  | none => none
  | some (lg, r) =>
  match expectChar ']' r with
  | none => none
  | some r =>
  match expectChar ' ' r with
  | none => none
  | some r =>
  match plusRun Char.isUpper r with
  | none => none
  | some (lv, r) =>
  match expectChar ' ' r with
  | none => none
  | some r =>
  match expectChar '(' r with
  | none => none
  | some r =>
  match plusRun isNotColon r with
  | none => none
  | some (f, r) =>
  match expectChar ':' r with
  | none => none
  | some r =>
  match plusRun Char.isDigit r with
  | none => none
  | some (ln, r) =>
  match expectChar ')' r with
  | none => none
  | some r =>
  match expectChar ' ' r with
  | none => none
  | some r =>
  match matchContent r with
  | none => none
  | some content =>
  some ⟨y ++ '-' :: mo ++ '-' :: d ++ ' ' :: h ++ ':' :: mi ++ ':' :: s
          ++ ',' :: frac,
        lg, lv, f, ln, content⟩

/-- Numeric value of a digit string (as Python `int` reads it). -/
def digitsVal (l : List Char) : Nat :=
  l.foldl (fun n c => n * 10 + (c.toNat - 48)) 0

/-- Gregorian leap-year rule used by `datetime`. -/
def isLeap (y : Nat) : Bool :=
  y % 4 = 0 && (y % 100 ≠ 0 || y % 400 = 0)

/-- Length of a month as `datetime` validates it. -/
def daysInMonth (y m : Nat) : Nat :=
  if m = 2 then (if isLeap y then 29 else 28)
  else if m = 4 ∨ m = 6 ∨ m = 9 ∨ m = 11 then 30
  else 31

/-- Embedding of
`datetime.datetime.strptime(ts, "%Y-%m-%d %H:%M:%S,%f")` applied to a
timestamp capture of `LOG_REGEX` (whose shape fixes each `%`-field to
the digit counts below).  `%f` consumes at most 6 digits, so a longer
fraction leaves unconverted data and the call raises `ValueError`
(here: `none`); fewer than 6 digits are right-padded with zeros.  The
numeric fields are validated exactly as `_strptime` plus the
`datetime` constructor do: year 1-9999, month 1-12, day within the
month, hour ≤ 23, minute ≤ 59, second ≤ 59. -/
def strptimeLogTs (ts : List Char) : Option DateTime :=
  match expectRun Char.isDigit 4 ts with
  | none => none
  | some (y, r) =>
  match expectChar '-' r with
  | none => none
  | some r =>
  match expectRun Char.isDigit 2 r with
  | none => none
  | some (mo, r) =>
  match expectChar '-' r with
  | none => none
  | some r =>
  match expectRun Char.isDigit 2 r with
  | none => none
  | some (d, r) =>
  match expectChar ' ' r with
  | none => none
  | some r =>
  match expectRun Char.isDigit 2 r with
  | none => none
  | some (h, r) =>
  match expectChar ':' r with
  | none => none
  | some r =>
  match expectRun Char.isDigit 2 r with
  | none => none
  | some (mi, r) =>
  match expectChar ':' r with
  | none => none
  | some r =>
  match expectRun Char.isDigit 2 r with
  | none => none
  | some (s, r) =>
  match expectChar ',' r with
  | none => none
  | some r =>
  match plusRun Char.isDigit r with
  | none => none
  | some (frac, r) =>
  if r = [] ∧ frac.length ≤ 6 ∧
      1 ≤ digitsVal y ∧ digitsVal y ≤ 9999 ∧
      1 ≤ digitsVal mo ∧ digitsVal mo ≤ 12 ∧
      1 ≤ digitsVal d ∧ digitsVal d ≤ daysInMonth (digitsVal y) (digitsVal mo) ∧
      digitsVal h ≤ 23 ∧ digitsVal mi ≤ 59 ∧ digitsVal s ≤ 59 then
    some ⟨digitsVal y, digitsVal mo, digitsVal d, digitsVal h,
          digitsVal mi, digitsVal s,
          digitsVal (frac ++ List.replicate (6 - frac.length) '0')⟩
  else none

/-- One iteration of the `try` block of `parse_logs`: `LOG_REGEX.match`
followed by `strptime` on the timestamp group; any failure raises
`ValueError`, modelled as `none`. -/
def classify (l : List Char) : Option LogDict :=
  match structMatch l with
  | none => none
  | some g =>
    match strptimeLogTs g.timestampStr with
    | none => none
    | some ts => some ⟨ts, g.logger, g.level, g.file, g.lineStr, g.content⟩

/-- The `except ValueError` handler of `parse_logs`:
`if logs: logs[-1]["content"] += "\n" + line` — append the raw line,
preceded by a newline, to the content of the last entry; with no
entries yet, do nothing. -/
def appendToLast : List LogDict → List Char → List LogDict
  | [], _ => []
  | [e], l => [{ e with content := e.content ++ '\n' :: l }]
  | e :: e2 :: es, l => e :: appendToLast (e2 :: es) l

/-- The body of the `for line in lines` loop of `parse_logs`. -/
def parseStep (logs : List LogDict) (line : List Char) : List LogDict :=
  match classify line with
  | some e => logs ++ [e]
  | none => appendToLast logs line

/-- `parse_logs`: fold every physical line, in order, into the entry
list. -/
def parse_logs (lines : List (List Char)) : List LogDict :=
  lines.foldl parseStep []

/-- Python's substring operator `needle in hay` on strings: some
contiguous run of `hay` equals `needle`. -/
def isSubstr (needle : List Char) : List Char → Bool
  | [] => needle.isEmpty
  | h :: t => needle.isPrefixOf (h :: t) || isSubstr needle t

/-- The `include_log` predicate of `read_logs`, with `since` already
deserialized: reject when `timestamp < since`, when a nonempty `level`
list lacks the entry's level, when a nonempty `logger` list lacks the
entry's logger, or when the lower-cased content lacks the lower-cased
search string. -/
def include_log (c : QueryCriteria) (log : LogDict) : Bool :=
  (match c.since with
   | some s => ! decide (log.timestamp.key < s.key)
   | none => true) &&
  (c.levels.isEmpty || c.levels.contains log.level) &&
  (c.loggers.isEmpty || c.loggers.contains log.logger) &&
  (match c.search with
   | some s => isSubstr (s.map Char.toLower) (log.content.map Char.toLower)
   | none => true)

/-- Insert an entry into a list ahead of the first element with a
timestamp at or above its own. -/
def orderedInsertTs (a : LogDict) : List LogDict → List LogDict
  | [] => [a]
  | b :: l =>
    if a.timestamp.key ≤ b.timestamp.key then a :: b :: l
    else b :: orderedInsertTs a l

/-- Embedding of `logs.sort(key=lambda log: log["timestamp"])`:
Python's sort is stable and ascending, and any stable ascending sort
by a key yields one and the same sequence; insertion sort in this
formulation is stable (proved below). -/
def sortByTs : List LogDict → List LogDict
  | [] => []
  | a :: l => orderedInsertTs a (sortByTs l)

/-- The filter / sort / reverse pipeline at the end of `read_logs`. -/
def queryLogs (c : QueryCriteria) (logs : List LogDict) : List LogDict :=
  (sortByTs (logs.filter (include_log c))).reverse

/-- The one failure `read_logs` raises while resolving its source. -/
inductive ReadLogsError where
  | configurationError
deriving DecidableEq, Repr

/-- The `"file"` literal compared against the configured handler. -/
def fileHandler : List Char := 'f' :: 'i' :: 'l' :: 'e' :: []

/-- Source resolution and pipeline of `read_logs`: return `[]` unless
the configured handler is `"file"`; raise `ConfigurationError` when
the handler is `"file"` but the configured path is `None` or empty
(falsy); return `[]` when the resolved file does not exist; otherwise
parse the file's lines and run the query pipeline.  Path expansion and
the file read are external collaborators, abstracted as the resolved
`fileExists` flag and the `lines` the read yields. -/
def read_logs (handler : Option (List Char)) (filePath : Option (List Char))
    (fileExists : Bool) (lines : List (List Char)) (c : QueryCriteria) :
    Except ReadLogsError (List LogDict) :=
  if handler ≠ some fileHandler then .ok []
  else match filePath with
    | none => .error .configurationError
    | some p =>
      if p = [] then .error .configurationError
      else if ! fileExists then .ok []
      else .ok (queryLogs c (parse_logs lines))

/-- The exemplar primary line of the specification. -/
def lineA : List Char :=
  ("2023-10-01 12:00:00,123456 [foo.bar] INFO (mod.py:10) hello").data

/-- The entry `parse_logs` produces for `lineA` (note the `line` field
holds the matched digit string, mirroring the code). -/
def entryA : LogDict :=
  ⟨⟨2023, 10, 1, 12, 0, 0, 123456⟩, ("foo.bar").data, ("INFO").data,
    ("mod.py").data, ("10").data, ("hello").data⟩

/-- A line that matches `LOG_REGEX` structurally but whose month field
is 13, so `strptime` raises `ValueError`. -/
def lineM13 : List Char :=
  ("2023-13-01 12:00:00,123456 [foo.bar] INFO (mod.py:10) hello").data

/-- A line whose fractional-seconds field has seven digits: structurally
matched by `LOG_REGEX` (`\d+`), rejected by `strptime` (`%f` consumes at
most six digits, leaving unconverted data). -/
def line7 : List Char :=
  ("2023-10-01 12:00:00,1234567 [foo.bar] INFO (mod.py:10) hello").data

/-- A `QueryCriteria` with no restricting field. -/
def emptyCriteria : QueryCriteria := ⟨none, [], [], none⟩

/-- Ascending sortedness by the timestamp key, the postcondition of
`logs.sort(key=lambda log: log["timestamp"])`. -/
def SortedTs (l : List LogDict) : Prop :=
  List.Pairwise (fun x y => x.timestamp.key ≤ y.timestamp.key) l

theorem orderedInsertTs_perm (a : LogDict) (l : List LogDict) :
    List.Perm (orderedInsertTs a l) (a :: l) := by
  induction l with
  | nil => simp [orderedInsertTs]
  | cons b t ih =>
    simp only [orderedInsertTs]
    split
    · exact List.Perm.refl _
    · exact (ih.cons b).trans (List.Perm.swap a b t)

theorem sortByTs_perm (l : List LogDict) : List.Perm (sortByTs l) l := by
  induction l with
  | nil => simp [sortByTs]
  | cons a t ih => exact (orderedInsertTs_perm a (sortByTs t)).trans (ih.cons a)

theorem orderedInsertTs_sorted (a : LogDict) (l : List LogDict) (h : SortedTs l) :
    SortedTs (orderedInsertTs a l) := by
  induction l with
  | nil => simp [orderedInsertTs, SortedTs]
  | cons b t ih =>
    simp only [orderedInsertTs]
    split
    case isTrue hab =>
      refine List.Pairwise.cons ?_ h
      intro x hx
      rcases List.mem_cons.mp hx with rfl | hx
      · exact hab
      · exact le_trans hab ((List.pairwise_cons.mp h).1 x hx)
    case isFalse hab =>
      have hba : b.timestamp.key ≤ a.timestamp.key := le_of_not_le hab
      have ht : SortedTs t := (List.pairwise_cons.mp h).2
      refine List.Pairwise.cons ?_ (ih ht)
      intro x hx
      have hx2 : x ∈ a :: t := (orderedInsertTs_perm a t).subset hx
      rcases List.mem_cons.mp hx2 with rfl | hx2
      · exact hba
      · exact (List.pairwise_cons.mp h).1 x hx2

theorem sortByTs_sorted (l : List LogDict) : SortedTs (sortByTs l) := by
  induction l with
  | nil => exact List.Pairwise.nil
  | cons a t ih => exact orderedInsertTs_sorted a (sortByTs t) ih

theorem filter_orderedInsertTs (a : LogDict) (l : List LogDict) (t : Nat) :
    (orderedInsertTs a l).filter (fun e => decide (e.timestamp.key = t)) =
      if a.timestamp.key = t then
        a :: l.filter (fun e => decide (e.timestamp.key = t))
      else l.filter (fun e => decide (e.timestamp.key = t)) := by
  induction l with
  | nil => by_cases hat : a.timestamp.key = t <;> simp [orderedInsertTs, hat]
  | cons b bt ih =>
    simp only [orderedInsertTs]
    split
    case isTrue hab =>
      by_cases hat : a.timestamp.key = t <;> simp [List.filter_cons, hat]
    case isFalse hab =>
      have hba : b.timestamp.key < a.timestamp.key := lt_of_not_le hab
      by_cases hat : a.timestamp.key = t
      · have hbt : ¬ b.timestamp.key = t := by omega
        simp [List.filter_cons, hbt, ih, hat]
      · simp only [List.filter_cons]
        by_cases hbtt : b.timestamp.key = t <;> simp [hbtt, ih, hat]

theorem filter_sortByTs (l : List LogDict) (t : Nat) :
    (sortByTs l).filter (fun e => decide (e.timestamp.key = t)) =
      l.filter (fun e => decide (e.timestamp.key = t)) := by
  induction l with
  | nil => rfl
  | cons a bt ih =>
    simp only [sortByTs, filter_orderedInsertTs, ih, List.filter_cons]
    by_cases hat : a.timestamp.key = t <;> simp [hat]

theorem sorted_nodup_eq (l1 : List LogDict) :
    ∀ l2 : List LogDict, List.Perm l1 l2 → SortedTs l1 → SortedTs l2 →
      (l1.map (fun e => e.timestamp.key)).Nodup → l1 = l2 := by
  induction l1 with
  | nil =>
    intro l2 hp _ _ _
    exact List.Perm.nil_eq hp
  | cons a t1 ih =>
    intro l2 hp hs1 hs2 hnd
    cases l2 with
    | nil => exact absurd hp.symm (by simp)
    | cons b t2 =>
      have hb1 : b ∈ a :: t1 := hp.symm.subset (List.mem_cons_self b t2)
      have ha2 : a ∈ b :: t2 := hp.subset (List.mem_cons_self a t1)
      have hab : a.timestamp.key ≤ b.timestamp.key := by
        rcases List.mem_cons.mp hb1 with h | h
        · exact le_of_eq (congrArg (fun e => e.timestamp.key) h).symm
        · exact (List.pairwise_cons.mp hs1).1 b h
      have hba : b.timestamp.key ≤ a.timestamp.key := by
        rcases List.mem_cons.mp ha2 with h | h
        · exact le_of_eq (congrArg (fun e => e.timestamp.key) h).symm
        · exact (List.pairwise_cons.mp hs2).1 a h
      have hk : a.timestamp.key = b.timestamp.key := le_antisymm hab hba
      have hac : a = b := by
        rcases List.mem_cons.mp hb1 with h | h
        · exact h.symm
        · exfalso
          have : a.timestamp.key ∈ t1.map (fun e => e.timestamp.key) := by
            rw [hk]
            exact List.mem_map_of_mem _ h
          exact (List.nodup_cons.mp hnd).1 this
      subst hac
      have hpt : List.Perm t1 t2 := hp.cons_inv
      have := ih t2 hpt (List.pairwise_cons.mp hs1).2 (List.pairwise_cons.mp hs2).2
        (List.nodup_cons.mp hnd).2
      rw [this]

theorem appendToLast_append (pre : List LogDict) (e : LogDict) (l : List Char) :
    appendToLast (pre ++ [e]) l =
      pre ++ [{ e with content := e.content ++ '\n' :: l }] := by
  induction pre with
  | nil => rfl
  | cons x xs ih =>
    cases xs with
    | nil => rfl
    | cons y ys =>
      have step : appendToLast ((x :: y :: ys) ++ [e]) l =
          x :: appendToLast ((y :: ys) ++ [e]) l := rfl
      rw [step, ih]
      rfl

theorem parse_logs_append (lines : List (List Char)) (l : List Char) :
    parse_logs (lines ++ [l]) = parseStep (parse_logs lines) l := by
  simp [parse_logs, List.foldl_append]

theorem takeWhile_all (p : Char → Bool) (a : List Char) (h : ∀ c ∈ a, p c) :
    a.takeWhile p = a := by
  induction a with
  | nil => rfl
  | cons x xs ih =>
    simp [List.takeWhile_cons, h x (List.mem_cons_self x xs),
      ih (fun c hc => h c (List.mem_cons_of_mem x hc))]

theorem dropWhile_all (p : Char → Bool) (a : List Char) (h : ∀ c ∈ a, p c) :
    a.dropWhile p = [] := by
  induction a with
  | nil => rfl
  | cons x xs ih =>
    simp [List.dropWhile_cons, h x (List.mem_cons_self x xs),
      ih (fun c hc => h c (List.mem_cons_of_mem x hc))]

theorem plusRun_exact (p : Char → Bool) (a : List Char) (ha : a ≠ [])
    (h : ∀ c ∈ a, p c) : plusRun p a = some (a, []) := by
  unfold plusRun
  rw [takeWhile_all p a h, dropWhile_all p a h]
  cases a with
  | nil => exact absurd rfl ha
  | cons x xs => rfl

theorem expectChar_cons (c : Char) (r : List Char) :
    expectChar c (c :: r) = some r := by
  simp [expectChar]

theorem expectRun_exact (p : Char → Bool) (a r : List Char) (h : ∀ c ∈ a, p c) :
    expectRun p a.length (a ++ r) = some (a, r) := by
  induction a with
  | nil => rfl
  | cons x xs ih =>
    simp [expectRun, h x (List.mem_cons_self x xs),
      ih (fun c hc => h c (List.mem_cons_of_mem x hc))]

/-- On a timestamp string of the exact shape the `LOG_REGEX` timestamp
group produces, `strptime` with format `%Y-%m-%d %H:%M:%S,%f` succeeds
precisely when the fraction has at most six digits and the numeric
fields form a valid calendar date-time, and the fraction is
right-padded with zeros to microseconds. -/
theorem strptime_shape (y mo d h mi s frac : List Char)
    (hy : y.length = 4) (hmo : mo.length = 2) (hd : d.length = 2)
    (hh : h.length = 2) (hmi : mi.length = 2) (hs : s.length = 2)
    (hyd : ∀ c ∈ y, c.isDigit) (hmod : ∀ c ∈ mo, c.isDigit)
    (hdd : ∀ c ∈ d, c.isDigit) (hhd : ∀ c ∈ h, c.isDigit)
    (hmid : ∀ c ∈ mi, c.isDigit) (hsd : ∀ c ∈ s, c.isDigit)
    (hfd : ∀ c ∈ frac, c.isDigit) (hf0 : frac ≠ []) :
    strptimeLogTs (y ++ '-' :: mo ++ '-' :: d ++ ' ' :: h ++ ':' :: mi
        ++ ':' :: s ++ ',' :: frac) =
      if frac.length ≤ 6 ∧
          1 ≤ digitsVal y ∧ digitsVal y ≤ 9999 ∧
          1 ≤ digitsVal mo ∧ digitsVal mo ≤ 12 ∧
          1 ≤ digitsVal d ∧
          digitsVal d ≤ daysInMonth (digitsVal y) (digitsVal mo) ∧
          digitsVal h ≤ 23 ∧ digitsVal mi ≤ 59 ∧ digitsVal s ≤ 59 then
        some ⟨digitsVal y, digitsVal mo, digitsVal d, digitsVal h,
          digitsVal mi, digitsVal s,
          digitsVal (frac ++ List.replicate (6 - frac.length) '0')⟩
      else none := by
  have e1 := hy ▸ expectRun_exact Char.isDigit y
    ('-' :: mo ++ '-' :: d ++ ' ' :: h ++ ':' :: mi ++ ':' :: s ++ ',' :: frac) hyd
  have e2 := hmo ▸ expectRun_exact Char.isDigit mo
    ('-' :: d ++ ' ' :: h ++ ':' :: mi ++ ':' :: s ++ ',' :: frac) hmod
  have e3 := hd ▸ expectRun_exact Char.isDigit d
    (' ' :: h ++ ':' :: mi ++ ':' :: s ++ ',' :: frac) hdd
  have e4 := hh ▸ expectRun_exact Char.isDigit h
    (':' :: mi ++ ':' :: s ++ ',' :: frac) hhd
  have e5 := hmi ▸ expectRun_exact Char.isDigit mi
    (':' :: s ++ ',' :: frac) hmid
  have e6 := hs ▸ expectRun_exact Char.isDigit s (',' :: frac) hsd
  have e7 := plusRun_exact Char.isDigit frac hf0 hfd
  simp only [List.cons_append, List.append_assoc] at e1 e2 e3 e4 e5 e6 ⊢
  simp only [strptimeLogTs, e1, e2, e3, e4, e5, e6, e7, expectChar_cons]
  simp

/-- C1: evaluating `parse_logs` on the specification's exemplar line
yields one entry with the claimed timestamp, logger, level, file and
content; the `line` field, however, is the two-character digit string
`"10"` (no `int` conversion is performed, contrary to the `LogDict`
declaration `line: int` and the claim's "non-negative integer 10"). -/
theorem c1_line_field_is_string :
    parse_logs [lineA] = [entryA] ∧ entryA.line = '1' :: '0' :: [] ∧
      digitsVal entryA.line = 10 := by
  decide

/-- C2: with `since` the midnight normalization of a bare calendar
date (and no other criterion), an entry whose timestamp is strictly
before that midnight is excluded and one at or after it is included. -/
theorem c2_since_midnight_cutoff (e : LogDict) (y mo d : Nat) :
    (e.timestamp.key < (midnightOf y mo d).key →
      include_log ⟨some (midnightOf y mo d), [], [], none⟩ e = false) ∧
    ((midnightOf y mo d).key ≤ e.timestamp.key →
      include_log ⟨some (midnightOf y mo d), [], [], none⟩ e = true) := by
  constructor <;> intro h <;> simp [include_log, h]

/-- C2 witness: `since` = midnight of 2023-10-02 excludes an entry
timestamped 2023-10-01T23:59:59.999999 and includes one timestamped
2023-10-02T00:00:00.000000. -/
theorem c2_since_midnight_cutoff_witness :
    include_log ⟨some (midnightOf 2023 10 2), [], [], none⟩
        ⟨⟨2023, 10, 1, 23, 59, 59, 999999⟩, [], [], [], [], []⟩ = false ∧
    include_log ⟨some (midnightOf 2023 10 2), [], [], none⟩
        ⟨⟨2023, 10, 2, 0, 0, 0, 0⟩, [], [], [], [], []⟩ = true :=
  ⟨(c2_since_midnight_cutoff ⟨⟨2023, 10, 1, 23, 59, 59, 999999⟩, [], [], [], [], []⟩
      2023 10 2).1 (by decide),
   (c2_since_midnight_cutoff ⟨⟨2023, 10, 2, 0, 0, 0, 0⟩, [], [], [], [], []⟩
      2023 10 2).2 (by decide)⟩

/-- C3 counterexample: `line7` conforms to the structural grammar
(`LOG_REGEX` matches, with a seven-digit fraction) and its timestamp
fields form a valid calendar date-time, yet the classifier yields
Unmatched, because `strptime` (whose `%f` consumes at most six digits)
raises `ValueError` on the timestamp group. -/
theorem c3_seven_digit_fraction_unmatched :
    structMatch line7 =
      some ⟨("2023-10-01 12:00:00,1234567").data, ("foo.bar").data,
        ("INFO").data, ("mod.py").data, ("10").data, ("hello").data⟩ ∧
    classify line7 = none := by
  decide

/-- C3 (amended): a structurally matched line whose timestamp fields
form a valid calendar date-time is classified Matched precisely when
the fractional-seconds field has one to six digits, the digits present
defining the sub-second precision by right-zero-padding to
microseconds; with seven or more digits the line is classified
Unmatched. -/
theorem c3_fraction_digit_count (l : List Char) (g : LogGroups)
    (y mo d h mi s frac : List Char)
    (hm : structMatch l = some g)
    (hts : g.timestampStr = y ++ '-' :: mo ++ '-' :: d ++ ' ' :: h
        ++ ':' :: mi ++ ':' :: s ++ ',' :: frac)
    (hy : y.length = 4) (hmo : mo.length = 2) (hd : d.length = 2)
    (hh : h.length = 2) (hmi : mi.length = 2) (hs : s.length = 2)
    (hyd : ∀ c ∈ y, c.isDigit) (hmod : ∀ c ∈ mo, c.isDigit)
    (hdd : ∀ c ∈ d, c.isDigit) (hhd : ∀ c ∈ h, c.isDigit)
    (hmid : ∀ c ∈ mi, c.isDigit) (hsd : ∀ c ∈ s, c.isDigit)
    (hfd : ∀ c ∈ frac, c.isDigit) (hf0 : frac ≠ [])
    (hy1 : 1 ≤ digitsVal y) (hy2 : digitsVal y ≤ 9999)
    (hmo1 : 1 ≤ digitsVal mo) (hmo2 : digitsVal mo ≤ 12)
    (hd1 : 1 ≤ digitsVal d)
    (hd2 : digitsVal d ≤ daysInMonth (digitsVal y) (digitsVal mo))
    (hh2 : digitsVal h ≤ 23) (hmi2 : digitsVal mi ≤ 59)
    (hs2 : digitsVal s ≤ 59) :
    (frac.length ≤ 6 →
      classify l = some ⟨⟨digitsVal y, digitsVal mo, digitsVal d,
          digitsVal h, digitsVal mi, digitsVal s,
          digitsVal (frac ++ List.replicate (6 - frac.length) '0')⟩,
        g.logger, g.level, g.file, g.lineStr, g.content⟩) ∧
    (6 < frac.length → classify l = none) := by
  have hsh := strptime_shape y mo d h mi s frac hy hmo hd hh hmi hs
    hyd hmod hdd hhd hmid hsd hfd hf0
  constructor
  · intro h6
    have hstrp : strptimeLogTs g.timestampStr =
        some ⟨digitsVal y, digitsVal mo, digitsVal d, digitsVal h,
          digitsVal mi, digitsVal s,
          digitsVal (frac ++ List.replicate (6 - frac.length) '0')⟩ := by
      rw [hts, hsh, if_pos]
      exact ⟨h6, hy1, hy2, hmo1, hmo2, hd1, hd2, hh2, hmi2, hs2⟩
    simp only [classify, hm, hstrp]
  · intro h7
    have hstrp : strptimeLogTs g.timestampStr = none := by
      rw [hts, hsh, if_neg]
      intro hcon
      omega
    simp only [classify, hm, hstrp]

/-- C3 witness: a three-digit fraction is classified Matched and
denotes 123000 microseconds. -/
theorem c3_fraction_digit_count_witness :
    classify (("2023-10-01 12:00:00,123 [foo.bar] INFO (mod.py:10) hello").data) =
      some ⟨⟨2023, 10, 1, 12, 0, 0, 123000⟩, ("foo.bar").data, ("INFO").data,
        ("mod.py").data, ("10").data, ("hello").data⟩ :=
  (c3_fraction_digit_count
    (("2023-10-01 12:00:00,123 [foo.bar] INFO (mod.py:10) hello").data)
    ⟨("2023-10-01 12:00:00,123").data, ("foo.bar").data, ("INFO").data,
      ("mod.py").data, ("10").data, ("hello").data⟩
    ("2023").data ("10").data ("01").data ("12").data ("00").data ("00").data
    ("123").data
    (by decide) (by decide) (by decide) (by decide) (by decide) (by decide)
    (by decide) (by decide) (by decide) (by decide) (by decide) (by decide)
    (by decide) (by decide) (by decide) (by decide) (by decide) (by decide)
    (by decide) (by decide) (by decide) (by decide) (by decide) (by decide)
    (by decide)).1 (by decide)

/-- C4 counterexample: with two entries sharing one timestamp (and no
restricting criteria), applying the filter-sort-reverse pipeline to
its own output does not reproduce it — each application reverses the
relative order of equal-timestamp entries. -/
theorem c4_not_idempotent_on_ties :
    queryLogs emptyCriteria
        (queryLogs emptyCriteria
          [⟨⟨2023, 1, 1, 0, 0, 0, 0⟩, [], [], [], [], 'a' :: []⟩,
           ⟨⟨2023, 1, 1, 0, 0, 0, 0⟩, [], [], [], [], 'b' :: []⟩]) ≠
      queryLogs emptyCriteria
        [⟨⟨2023, 1, 1, 0, 0, 0, 0⟩, [], [], [], [], 'a' :: []⟩,
         ⟨⟨2023, 1, 1, 0, 0, 0, 0⟩, [], [], [], [], 'b' :: []⟩] := by
  decide

/-- C4 (amended): re-applying the same criteria filters nothing
further, and when the entries' timestamps are pairwise distinct the
whole filter-sort-reverse pipeline is idempotent; only the relative
order of equal-timestamp entries changes (it is reversed) under a
second application. -/
theorem c4_idempotent_distinct_timestamps (c : QueryCriteria)
    (logs : List LogDict)
    (hnd : (logs.map (fun e => e.timestamp.key)).Nodup) :
    (queryLogs c logs).filter (include_log c) = queryLogs c logs ∧
    queryLogs c (queryLogs c logs) = queryLogs c logs := by
  have hall : ∀ e ∈ queryLogs c logs, include_log c e = true := by
    intro e he
    have h1 : e ∈ sortByTs (logs.filter (include_log c)) :=
      List.mem_reverse.mp he
    have h2 : e ∈ logs.filter (include_log c) :=
      (sortByTs_perm _).subset h1
    exact (List.mem_filter.mp h2).2
  have hfilt : (queryLogs c logs).filter (include_log c) = queryLogs c logs :=
    List.filter_eq_self.mpr hall
  refine ⟨hfilt, ?_⟩
  have hperm : List.Perm
      (sortByTs ((sortByTs (logs.filter (include_log c))).reverse))
      (sortByTs (logs.filter (include_log c))) :=
    (sortByTs_perm _).trans (List.reverse_perm _)
  have hndf : ((sortByTs ((sortByTs (logs.filter (include_log c))).reverse)).map
      (fun e => e.timestamp.key)).Nodup := by
    have hsub : (logs.filter (include_log c)).Sublist logs :=
      List.filter_sublist _
    have hnd1 : ((logs.filter (include_log c)).map
        (fun e => e.timestamp.key)).Nodup :=
      hnd.sublist (hsub.map _)
    exact ((hperm.trans (sortByTs_perm _)).map
      (fun e => e.timestamp.key)).nodup_iff.mpr hnd1
  have heq : sortByTs ((sortByTs (logs.filter (include_log c))).reverse) =
      sortByTs (logs.filter (include_log c)) :=
    sorted_nodup_eq _ _ hperm (sortByTs_sorted _) (sortByTs_sorted _) hndf
  show (sortByTs ((queryLogs c logs).filter (include_log c))).reverse = _
  rw [hfilt]
  show (sortByTs ((sortByTs (logs.filter (include_log c))).reverse)).reverse = _
  rw [heq]
  rfl

/-- C4 witness: on two entries with distinct timestamps the pipeline
is idempotent. -/
theorem c4_idempotent_distinct_timestamps_witness :
    (queryLogs emptyCriteria
        [⟨⟨2023, 1, 1, 0, 0, 0, 0⟩, [], [], [], [], 'a' :: []⟩,
         ⟨⟨2023, 1, 2, 0, 0, 0, 0⟩, [], [], [], [], 'b' :: []⟩]).filter
        (include_log emptyCriteria) =
      queryLogs emptyCriteria
        [⟨⟨2023, 1, 1, 0, 0, 0, 0⟩, [], [], [], [], 'a' :: []⟩,
         ⟨⟨2023, 1, 2, 0, 0, 0, 0⟩, [], [], [], [], 'b' :: []⟩] ∧
    queryLogs emptyCriteria
        (queryLogs emptyCriteria
          [⟨⟨2023, 1, 1, 0, 0, 0, 0⟩, [], [], [], [], 'a' :: []⟩,
           ⟨⟨2023, 1, 2, 0, 0, 0, 0⟩, [], [], [], [], 'b' :: []⟩]) =
      queryLogs emptyCriteria
        [⟨⟨2023, 1, 1, 0, 0, 0, 0⟩, [], [], [], [], 'a' :: []⟩,
         ⟨⟨2023, 1, 2, 0, 0, 0, 0⟩, [], [], [], [], 'b' :: []⟩] :=
  c4_idempotent_distinct_timestamps emptyCriteria
    [⟨⟨2023, 1, 1, 0, 0, 0, 0⟩, [], [], [], [], 'a' :: []⟩,
     ⟨⟨2023, 1, 2, 0, 0, 0, 0⟩, [], [], [], [], 'b' :: []⟩] (by decide)

/-- C5: for every criteria and input, the result sequence has
non-increasing timestamps, and restricted to any fixed timestamp key
it is exactly the reverse of the filtered input order — the entry
appended latest among equal timestamps appears first, the semantics of
a stable ascending sort followed by a full reversal. -/
theorem c5_result_ordering (c : QueryCriteria) (logs : List LogDict) :
    List.Pairwise (fun a b => b.timestamp.key ≤ a.timestamp.key)
      (queryLogs c logs) ∧
    ∀ t : Nat, (queryLogs c logs).filter (fun e => decide (e.timestamp.key = t)) =
      ((logs.filter (include_log c)).filter
        (fun e => decide (e.timestamp.key = t))).reverse := by
  constructor
  · exact List.pairwise_reverse.mpr (sortByTs_sorted _)
  · intro t
    show ((sortByTs (logs.filter (include_log c))).reverse).filter _ = _
    rw [List.filter_reverse, filter_sortByTs]

/-- C6: a line that `LOG_REGEX` matches structurally but whose
timestamp `strptime` rejects is classified Unmatched, and the
assembler's exception handler absorbs it: the raw line is appended,
newline-prefixed, to the open entry's content, or discarded when no
entry is open; no error escapes. -/
theorem c6_invalid_timestamp_is_continuation (l : List Char) (g : LogGroups)
    (hm : structMatch l = some g)
    (hts : strptimeLogTs g.timestampStr = none) :
    classify l = none ∧ parseStep [] l = [] ∧
    ∀ pre e, parseStep (pre ++ [e]) l =
      pre ++ [{ e with content := e.content ++ '\n' :: l }] := by
  have hc : classify l = none := by
    simp only [classify, hm, hts]
  refine ⟨hc, ?_, ?_⟩
  · simp only [parseStep, hc]
    rfl
  · intro pre e
    simp only [parseStep, hc]
    exact appendToLast_append pre e l

/-- C6 witness: the month-13 line is absorbed as a continuation. -/
theorem c6_invalid_timestamp_is_continuation_witness :
    classify lineM13 = none ∧ parseStep [] lineM13 = [] ∧
    parseStep [entryA] lineM13 =
      [{ entryA with content := entryA.content ++ '\n' :: lineM13 }] :=
  have h := c6_invalid_timestamp_is_continuation lineM13
    ⟨("2023-13-01 12:00:00,123456").data, ("foo.bar").data, ("INFO").data,
      ("mod.py").data, ("10").data, ("hello").data⟩
    (by decide) (by decide)
  ⟨h.1, h.2.1, h.2.2 [] entryA⟩

/-- C7: source resolution of `read_logs` fails (with the configuration
fault) exactly when the handler is `"file"` and no path is configured
(`None` or empty, both falsy); a non-`"file"` handler or a missing
file yields the empty list with no fault. -/
theorem c7_failure_iff_unconfigured_path (handler : Option (List Char))
    (filePath : Option (List Char)) (fileExists : Bool)
    (lines : List (List Char)) (c : QueryCriteria) :
    (read_logs handler filePath fileExists lines c =
        .error .configurationError ↔
      handler = some fileHandler ∧ (filePath = none ∨ filePath = some [])) ∧
    (handler ≠ some fileHandler →
      read_logs handler filePath fileExists lines c = .ok []) ∧
    (∀ p, handler = some fileHandler → filePath = some p → p ≠ [] →
      fileExists = false →
      read_logs handler filePath fileExists lines c = .ok []) := by
  by_cases hh : handler = some fileHandler
  · subst hh
    cases filePath with
    | none => simp [read_logs]
    | some p =>
      by_cases hp : p = []
      · subst hp
        simp [read_logs]
      · cases fileExists <;> simp [read_logs, hp]
  · simp [read_logs, hh]

/-- C7 witness: handler `"file"` with no path faults; handler absent
or file missing yields the empty list. -/
theorem c7_failure_iff_unconfigured_path_witness :
    read_logs (some fileHandler) none true [lineA] emptyCriteria =
      .error .configurationError ∧
    read_logs none none true [lineA] emptyCriteria = .ok [] ∧
    read_logs (some fileHandler) (some ('a' :: [])) false [lineA]
      emptyCriteria = .ok [] :=
  ⟨(c7_failure_iff_unconfigured_path (some fileHandler) none true [lineA]
      emptyCriteria).1.mpr ⟨rfl, Or.inl rfl⟩,
   (c7_failure_iff_unconfigured_path none none true [lineA]
      emptyCriteria).2.1 (by decide),
   (c7_failure_iff_unconfigured_path (some fileHandler) (some ('a' :: []))
      false [lineA] emptyCriteria).2.2 ('a' :: []) rfl rfl (by decide) rfl⟩

/-- C8: assembling the exemplar primary line followed by a traceback
line yields one entry whose content is the original message, a
newline, and the traceback line. -/
theorem c8_traceback_continuation :
    parse_logs [lineA, ("Traceback (most recent call last):").data] =
      [{ entryA with
          content := ("hello\nTraceback (most recent call last):").data }] := by
  decide

/-- C9: with no criteria fields supplied, the filter keeps every
assembled entry, the sort-then-reverse ordering is still applied, and
the result is a permutation of the input. -/
theorem c9_empty_criteria_returns_all (logs : List LogDict) :
    logs.filter (include_log emptyCriteria) = logs ∧
    queryLogs emptyCriteria logs = (sortByTs logs).reverse ∧
    List.Perm (queryLogs emptyCriteria logs) logs := by
  have h1 : logs.filter (include_log emptyCriteria) = logs :=
    List.filter_eq_self.mpr (fun e _ => rfl)
  refine ⟨h1, ?_, ?_⟩
  · show (sortByTs (logs.filter (include_log emptyCriteria))).reverse = _
    rw [h1]
  · show List.Perm (sortByTs (logs.filter (include_log emptyCriteria))).reverse _
    rw [h1]
    exact (List.reverse_perm _).trans (sortByTs_perm _)

/-- C10: an unmatched physical line is appended to the open entry's
content exactly as given, with no stripping of terminators; in
particular a trailing newline on the unmatched line becomes the last
character of the entry's content. -/
theorem c10_no_terminator_stripping (lines : List (List Char))
    (line : List Char) (pre : List LogDict) (e : LogDict)
    (hc : classify line = none) (hp : parse_logs lines = pre ++ [e]) :
    parse_logs (lines ++ [line]) =
      pre ++ [{ e with content := e.content ++ '\n' :: line }] ∧
    (line.getLast? = some '\n' →
      (e.content ++ '\n' :: line).getLast? = some '\n') := by
  constructor
  · rw [parse_logs_append, hp]
    simp only [parseStep, hc]
    exact appendToLast_append pre e line
  · intro hl
    have hne : line ≠ [] := by
      intro h0
      rw [h0] at hl
      simp at hl
    rw [List.getLast?_append_of_ne_nil _ (by simp)]
    rw [show ('\n' :: line) = ('\n' :: []) ++ line from rfl,
      List.getLast?_append_of_ne_nil _ hne]
    exact hl

/-- C10 witness: an unmatched line ending in a newline leaves the
entry's content ending in that newline. -/
theorem c10_no_terminator_stripping_witness :
    parse_logs [lineA, 'x' :: '\n' :: []] =
      [{ entryA with content := entryA.content ++ '\n' :: 'x' :: '\n' :: [] }] ∧
    (entryA.content ++ '\n' :: 'x' :: '\n' :: []).getLast? = some '\n' :=
  have h := c10_no_terminator_stripping [lineA] ('x' :: '\n' :: []) [] entryA
    (by decide) (by decide)
  ⟨h.1, h.2 (by decide)⟩

end Enfugue
